import Mathlib

set_option maxRecDepth 8192

/-!
Verification of the nostr-types delegation and profile cores.

Shallow embedding of `src/nostr-types-lib/src/delegation.rs`,
`src/nostr-types-lib/src/profile.rs` and the error variants of
`src/nostr-types-lib/src/error.rs` those files raise.  External
capabilities (secp256k1 sign/verify, key byte codecs, the bech32 crate,
UTF-8 validation) are modelled as explicit function parameters, with the
properties the library guarantees stated as hypotheses where a theorem
needs them.  Machine integers are `Nat`/`Int` with explicit bounds and
`% 256` where the Rust code truncates (`as u8`).  Rust panics (out of
bounds indexing and slicing) are modelled by a dedicated result
constructor, never by an error value.
-/

/-- Mirrors `std::num::IntErrorKind`, the payload of `ParseIntError`
carried by `Error::ParseInt`.  Note it records only the failure kind,
not the offending substring. -/
inductive IntErrorKind where
  | empty
  | invalidDigit
  | posOverflow
  | negOverflow
  deriving DecidableEq

/-- The variants of `Error` (src/nostr-types-lib/src/error.rs) that the
delegation and profile cores raise.  Payloads of external library error
types are omitted except for the `ParseIntError` kind. -/
inductive Error where
  /-- `Error::Bech32(bech32::Error)`: a checksum-text decode failure. -/
  | Bech32 : Error
  /-- `Error::WrongBech32(expected, found)`. -/
  | WrongBech32 : String → String → Error
  /-- `Error::Signature(k256::ecdsa::Error)`. -/
  | Signature : Error
  /-- `Error::InvalidProfile`. -/
  | InvalidProfile : Error
  /-- `Error::InvalidPublicKey`. -/
  | InvalidPublicKey : Error
  /-- `Error::ParseInt(std::num::ParseIntError)`, payload reduced to its kind. -/
  | ParseInt : IntErrorKind → Error
  /-- `Error::Utf8Error(std::str::Utf8Error)`. -/
  | Utf8Error : Error
  deriving DecidableEq

/-- Rust decimal digit value of a character (`char::to_digit(10)`). -/
def digitVal (c : Char) : Option Nat :=
  if 48 ≤ c.toNat ∧ c.toNat ≤ 57 then some (c.toNat - 48) else none

/-- Decimal digits of `n`, most significant first; empty for `n = 0`.
Fuel-based so that it is structural (call with `fuel ≥ n`). -/
def natDecAux : Nat → Nat → List Char
  | 0, _ => []
  | fuel + 1, n =>
    if n = 0 then []
    else natDecAux fuel (n / 10) ++ [Char.ofNat (48 + n % 10)]

/-- Decimal rendering of a natural number, as Rust's `Display` for
unsigned integers produces it. -/
def natDecimal (n : Nat) : List Char :=
  if n = 0 then ['0'] else natDecAux n n

/-- Decimal rendering of an integer, as Rust's `Display` for `i64`
produces it: a `-` sign followed by the magnitude when negative. -/
def intDecimal (i : Int) : List Char :=
  if i < 0 then '-' :: natDecimal i.natAbs else natDecimal i.natAbs

/-- The digit-accumulation loop of Rust's `from_str_radix` at radix 10:
each character must be a decimal digit, and every intermediate
accumulator value must stay within the bound `B` (the maximum value of
the integer type), otherwise the overflow kind `ov` is returned. -/
def parseLoopB (B : Nat) (ov : IntErrorKind) : List Char → Nat → Except IntErrorKind Nat
  | [], acc => .ok acc
  | c :: cs, acc =>
    match digitVal c with
    | none => .error .invalidDigit
    | some d =>
      if acc * 10 + d ≤ B then parseLoopB B ov cs (acc * 10 + d)
      else .error ov

/-- Rust's `str::parse::<u64>()`: empty input is `Empty`; a lone sign is
`InvalidDigit`; a leading `+` is skipped; a `-` (unsigned type) falls
through to the digit loop and fails as `InvalidDigit`; values above
`u64::MAX` are `PosOverflow`. -/
def rustParseU64 (cs : List Char) : Except IntErrorKind Nat :=
  match cs with
  | [] => .error .empty
  | c :: rest =>
    if c = '+' then
      match rest with
      | [] => .error .invalidDigit
      | _ :: _ => parseLoopB 18446744073709551615 .posOverflow rest 0
    else parseLoopB 18446744073709551615 .posOverflow (c :: rest) 0

/-- Rust's `str::parse::<i64>()`: optional sign, decimal digits,
result within `[-2^63, 2^63 - 1]`.  A negative number accumulates
magnitude up to `2^63` before negation. -/
def rustParseI64 (cs : List Char) : Except IntErrorKind Int :=
  match cs with
  | [] => .error .empty
  | c :: rest =>
    if c = '+' then
      match rest with
      | [] => .error .invalidDigit
      | _ :: _ =>
        match parseLoopB 9223372036854775807 .posOverflow rest 0 with
        | .ok n => .ok (Int.ofNat n)
        | .error e => .error e
    else if c = '-' then
      match rest with
      | [] => .error .invalidDigit
      | _ :: _ =>
        match parseLoopB 9223372036854775808 .negOverflow rest 0 with
        | .ok n => .ok (-(Int.ofNat n))
        | .error e => .error e
    else
      match parseLoopB 9223372036854775807 .posOverflow (c :: rest) 0 with
      | .ok n => .ok (Int.ofNat n)
      | .error e => .error e

/-- Rust's `str::strip_prefix`, on character lists. -/
def stripPrefixL : List Char → List Char → Option (List Char)
  | [], s => some s
  | _ :: _, [] => none
  | p :: pr, c :: cr => if p = c then stripPrefixL pr cr else none

/-- Rust's `str::split('&')`: the list of `&`-separated parts, empty
parts included; the empty string yields one empty part. -/
def splitAmp : List Char → List (List Char)
  | [] => [[]]
  | c :: rest =>
    let ps := splitAmp rest
    if c = '&' then [] :: ps
    else
      match ps with
      | [] => [[c]]
      | p :: ps' => (c :: p) :: ps'

/-- Rust's `Vec::join("&")` on character lists. -/
def joinAmp : List (List Char) → List Char
  | [] => []
  | [p] => p
  | p :: ps => p ++ '&' :: joinAmp ps

/-- `DelegationConditions` (src/nostr-types-lib/src/delegation.rs).
Modelled from the spec for the two field types that live outside `src/`:
`EventKind` is represented by its unsigned-integer (`u64`) value, per
spec §3 ("optional event-kind identifier (unsigned integer)"), and
`Unixtime` by its signed 64-bit integer value ("optional Unix
timestamps (signed 64-bit seconds)"). -/
structure DelegationConditions where
  kind : Option Nat
  created_after : Option Int
  created_before : Option Int
  deriving DecidableEq

/-- The parts pushed by `DelegationConditions::as_string`: `kind=<uint>`,
then `created_at><int>`, then `created_at<<int>`, each omitted when the
field is `None`. -/
def condParts (c : DelegationConditions) : List (List Char) :=
  (match c.kind with
   | some kind => ["kind=".data ++ natDecimal kind]
   | none => []) ++
  (match c.created_after with
   | some created_after => ["created_at>".data ++ intDecimal created_after]
   | none => []) ++
  (match c.created_before with
   | some created_before => ["created_at<".data ++ intDecimal created_before]
   | none => [])

/-- `DelegationConditions::as_string`: push the present parts in fixed
order and join with `&`. -/
def DelegationConditions.as_string (c : DelegationConditions) : String :=
  String.mk (joinAmp (condParts c))

/-- First `if let` of `try_from_str`: `part.strip_prefix("kind=")`,
then `kindstr.parse::<u64>()?` and `EventKind::from(u64)` (identity on
the numeric value). -/
def applyKind (o : DelegationConditions) (part : List Char) : Except Error DelegationConditions :=
  match stripPrefixL "kind=".data part with
  | some kindstr =>
    match rustParseU64 kindstr with
    | .ok event_num => .ok { o with kind := some event_num }
    | .error e => .error (.ParseInt e)
  | none => .ok o

/-- Second `if let` of `try_from_str`: `part.strip_prefix("created_at>")`
then `timestr.parse::<i64>()?`. -/
def applyAfter (o : DelegationConditions) (part : List Char) : Except Error DelegationConditions :=
  match stripPrefixL "created_at>".data part with
  | some timestr =>
    match rustParseI64 timestr with
    | .ok time => .ok { o with created_after := some time }
    | .error e => .error (.ParseInt e)
  | none => .ok o

/-- Third `if let` of `try_from_str`: `part.strip_prefix("created_at<")`
then `timestr.parse::<i64>()?`. -/
def applyBefore (o : DelegationConditions) (part : List Char) : Except Error DelegationConditions :=
  match stripPrefixL "created_at<".data part with
  | some timestr =>
    match rustParseI64 timestr with
    | .ok time => .ok { o with created_before := some time }
    | .error e => .error (.ParseInt e)
  | none => .ok o

/-- One iteration of the `for part in parts` loop of `try_from_str`:
the three `if let` blocks run in sequence, each `?` aborting the loop. -/
def applyPart (o : DelegationConditions) (part : List Char) : Except Error DelegationConditions :=
  match applyKind o part with
  | .error e => .error e
  | .ok o1 =>
    match applyAfter o1 part with
    | .error e => .error e
    | .ok o2 => applyBefore o2 part

/-- The loop of `try_from_str` over the list of parts. -/
def tfsList : DelegationConditions → List (List Char) → Except Error DelegationConditions
  | o, [] => .ok o
  | o, p :: ps =>
    match applyPart o p with
    | .error e => .error e
    | .ok o' => tfsList o' ps

/-- `DelegationConditions::try_from_str`: start from
`Default::default()` (all three fields `None`) and fold the parts of
`s.split('&')`. -/
def DelegationConditions.try_from_str (s : String) : Except Error DelegationConditions :=
  tfsList ⟨none, none, none⟩ (splitAmp s.data)

section Delegation

variable {PrivKey PubKey Sig SigHex : Type}

/-- `DelegationConditions::generate_signature`: build
`format!("nostr:delegation:{}:{}", pubkey, self.as_string())` (where
`pubkey: PublicKeyHex` displays as its hex string), sign its UTF-8
bytes with the external signer (`private_key.sign(input.as_bytes())?`),
and convert the signature into hex form (`signature.into()`).  The
external capabilities are the parameters `as_bytes`, `sign`,
`sigIntoHex`. -/
def generate_signature (as_bytes : String → List Nat)
    (sign : PrivKey → List Nat → Except Error Sig) (sigIntoHex : Sig → SigHex)
    (c : DelegationConditions) (pubkey : String) (privateKey : PrivKey) :
    Except Error SigHex :=
  match sign privateKey (as_bytes ("nostr:delegation:" ++ pubkey ++ ":" ++ c.as_string)) with
  | .error e => .error e
  | .ok signature => .ok (sigIntoHex signature)

/-- `DelegationConditions::verify_signature`: rebuild
`format!("nostr:delegation:{}:{}", pubkey_delegatee.as_hex_string(), self.as_string())`
and call `pubkey_delegater.verify(input.as_bytes(), signature)`.  The
external capabilities are `as_bytes`, `as_hex_string` and `verify`. -/
def verify_signature (as_bytes : String → List Nat) (as_hex_string : PubKey → String)
    (verify : PubKey → List Nat → Sig → Except Error Unit)
    (c : DelegationConditions) (pubkey_delegater pubkey_delegatee : PubKey)
    (signature : Sig) : Except Error Unit :=
  verify pubkey_delegater
    (as_bytes ("nostr:delegation:" ++ as_hex_string pubkey_delegatee ++ ":" ++ c.as_string))
    signature

/-- Modelled from the spec (§4.2): `build_signing_payload` is the
deterministic UTF-8 string
`"nostr:delegation:" + delegatee_pubkey_hex + ":" + serialize(conditions)`;
its byte form is obtained by the UTF-8 encoding capability. -/
def build_signing_payload (delegatee_pubkey_hex : String) (c : DelegationConditions) : String :=
  "nostr:delegation:" ++ delegatee_pubkey_hex ++ ":" ++ c.as_string

end Delegation

section ProfileSection

/-- A computation that, like the Rust code, can also panic (out of
bounds `Vec` indexing or slicing), distinct from returning an `Error`. -/
inductive RResult (α : Type) where
  | ok : α → RResult α
  | err : Error → RResult α
  | panic : String → RResult α
  deriving DecidableEq

/-- Rust `Vec` indexing `v[i]`: panics when out of bounds. -/
def idx (l : List Nat) (i : Nat) : RResult Nat :=
  match l.get? i with
  | some v => .ok v
  | none => .panic "index out of bounds"

/-- Rust slicing `&v[a..b]`: panics when the range is out of bounds. -/
def sliceR (l : List Nat) (a b : Nat) : RResult (List Nat) :=
  if a ≤ b ∧ b ≤ l.length then .ok ((l.drop a).take (b - a)) else .panic "slice index out of range"

variable {PubKey B32 : Type}

/-- `Profile` (src/nostr-types-lib/src/profile.rs).  `UncheckedUrl`
lives outside `src/`; modelled from the spec as the relay URL string it
wraps ("a UTF-8 URL string", stored verbatim). -/
structure Profile (PubKey : Type) where
  pubkey : PubKey
  relays : List String
  deriving DecidableEq

/-- The external capabilities `profile.rs` calls: the key byte codec
(`XOnlyPublicKey::to_bytes` / `PublicKey::from_bytes`), Rust's string
byte view (`str::as_bytes`, whose length is `String::len`), UTF-8
validation (`std::str::from_utf8`, failures surfacing as
`Error::Utf8Error`), and the bech32 crate (`to_base32`,
`bech32::encode`, `bech32::decode`, `Vec::<u8>::from_base32`). -/
structure ProfileCaps (PubKey B32 : Type) where
  to_bytes : PubKey → List Nat
  from_bytes : List Nat → Except Error PubKey
  utf8_bytes : String → List Nat
  from_utf8 : List Nat → Except Error String
  to_base32 : List Nat → B32
  encode : String → B32 → String
  decode : String → Except Error (String × B32)
  from_base32 : B32 → Except Error (List Nat)

/-- The relay loop of `Profile::as_bech32_string`: for each relay push
type byte `1`, then `relay.0.len() as u8` (the byte length truncated to
one byte), then the relay's UTF-8 bytes. -/
def relayRecords (utf8_bytes : String → List Nat) : List String → List Nat
  | [] => []
  | relay :: rest =>
    1 :: ((utf8_bytes relay).length % 256) :: (utf8_bytes relay ++ relayRecords utf8_bytes rest)

/-- The TLV byte buffer composed by `Profile::as_bech32_string`:
`[0, 32]`, the 32 public key bytes, then the relay records. -/
def tlvOf (caps : ProfileCaps PubKey B32) (p : Profile PubKey) : List Nat :=
  0 :: 32 :: (caps.to_bytes p.pubkey ++ relayRecords caps.utf8_bytes p.relays)

/-- `Profile::as_bech32_string`: bech32-encode the TLV buffer with
human-readable prefix `"nprofile"`. -/
def Profile.as_bech32_string (caps : ProfileCaps PubKey B32) (p : Profile PubKey) : String :=
  caps.encode "nprofile" (caps.to_base32 (tlvOf caps p))

/-- The `while tlv.len() >= pos + 2` loop of
`Profile::try_from_bech32_string`, phrased on the not-yet-consumed
suffix of the buffer; `fuel` only bounds the recursion and is irrelevant
whenever `fuel + 1` is at least the suffix length. -/
def relayLoopF (from_utf8 : List Nat → Except Error String) :
    Nat → List Nat → List String → RResult (List String)
  | _, [], relays => .ok relays
  | _, [_], relays => .ok relays
  | 0, _ :: _ :: _, _ => .panic "out of fuel"
  | fuel + 1, typ :: len :: rest, relays =>
    if typ ≠ 1 then .err .InvalidProfile
    else if rest.length < len then .err .InvalidProfile
    else
      match from_utf8 (rest.take len) with
      | .error e => .err e
      | .ok relay_str => relayLoopF from_utf8 fuel (rest.drop len) (relays ++ [relay_str])

/-- `Profile::try_from_bech32_string`: bech32-decode, check the
human-readable prefix, convert from base32, then read the TLV buffer,
with `tlv[0]`, `tlv[1]` and `&tlv[2..2+32]` indexing exactly as the
Rust code does (panicking when out of bounds). -/
def Profile.try_from_bech32_string (caps : ProfileCaps PubKey B32) (s : String) :
    RResult (Profile PubKey) :=
  match caps.decode s with
  | .error e => .err e
  | .ok data =>
    if data.fst ≠ "nprofile" then .err (.WrongBech32 "nprofile" data.fst)
    else
      match caps.from_base32 data.snd with
      | .error e => .err e
      | .ok tlv =>
        match idx tlv 0 with
        | .panic m => .panic m
        | .err e => .err e
        | .ok t0 =>
          if t0 ≠ 0 then .err .InvalidProfile
          else
            match idx tlv 1 with
            | .panic m => .panic m
            | .err e => .err e
            | .ok t1 =>
              if t1 ≠ 32 then .err .InvalidProfile
              else
                match sliceR tlv 2 (2 + 32) with
                | .panic m => .panic m
                | .err e => .err e
                | .ok keyBytes =>
                  match caps.from_bytes keyBytes with
                  | .error e => .err e
                  | .ok pubkey =>
                    match relayLoopF caps.from_utf8 (tlv.drop (2 + 32)).length
                        (tlv.drop (2 + 32)) [] with
                    | .panic m => .panic m
                    | .err e => .err e
                    | .ok relays => .ok ⟨pubkey, relays⟩

end ProfileSection

theorem digitVal_ofNat {m : Nat} (h : m < 10) : digitVal (Char.ofNat (48 + m)) = some m := by
  interval_cases m <;> decide

theorem natDecAux_mem_toNat {fuel n : Nat} {c : Char} (h : c ∈ natDecAux fuel n) :
    48 ≤ c.toNat ∧ c.toNat ≤ 57 := by
  induction fuel generalizing n with
  | zero => simp [natDecAux] at h
  | succ fuel ih =>
    simp only [natDecAux] at h
    split at h
    · simp at h
    · rcases List.mem_append.mp h with h1 | h2
      · exact ih h1
      · have hm : n % 10 < 10 := Nat.mod_lt _ (by norm_num)
        simp only [List.mem_singleton] at h2
        subst h2
        generalize n % 10 = m at hm
        interval_cases m <;> decide

theorem natDecimal_mem_toNat {n : Nat} {c : Char} (h : c ∈ natDecimal n) :
    48 ≤ c.toNat ∧ c.toNat ≤ 57 := by
  unfold natDecimal at h
  split at h
  · simp only [List.mem_singleton] at h
    subst h
    decide
  · exact natDecAux_mem_toNat h

theorem natDecimal_ne_nil (n : Nat) : natDecimal n ≠ [] := by
  by_cases h0 : n = 0
  · subst h0; simp [natDecimal]
  · obtain ⟨m, rfl⟩ := Nat.exists_eq_succ_of_ne_zero h0
    simp [natDecimal, natDecAux]

theorem natDecimal_cons (n : Nat) : ∃ c cs, natDecimal n = c :: cs := by
  cases hnd : natDecimal n with
  | nil => exact absurd hnd (natDecimal_ne_nil n)
  | cons c cs => exact ⟨c, cs, rfl⟩

theorem parseLoopB_append (B : Nat) (ov : IntErrorKind) (xs ys : List Char) (acc : Nat) :
    parseLoopB B ov (xs ++ ys) acc =
      match parseLoopB B ov xs acc with
      | .ok a => parseLoopB B ov ys a
      | .error e => .error e := by
  induction xs generalizing acc with
  | nil => simp [parseLoopB]
  | cons c cs ih =>
    simp only [List.cons_append, parseLoopB]
    cases hd : digitVal c with
    | none => rfl
    | some d =>
      by_cases hb : acc * 10 + d ≤ B
      · simp [hb, ih]
      · simp [hb]

theorem parseLoopB_natDecAux {B : Nat} (ov : IntErrorKind) (fuel n : Nat)
    (hf : n ≤ fuel) (hB : n ≤ B) :
    parseLoopB B ov (natDecAux fuel n) 0 = .ok n := by
  induction fuel generalizing n with
  | zero =>
    interval_cases n
    simp [natDecAux, parseLoopB]
  | succ fuel ih =>
    by_cases h0 : n = 0
    · subst h0; simp [natDecAux, parseLoopB]
    · have h10 : n / 10 < n := Nat.div_lt_self (Nat.pos_of_ne_zero h0) (by norm_num)
      have hf' : n / 10 ≤ fuel := by omega
      have hB' : n / 10 ≤ B := by omega
      simp only [natDecAux, if_neg h0]
      rw [parseLoopB_append, ih (n / 10) hf' hB']
      have hm : n % 10 < 10 := Nat.mod_lt _ (by norm_num)
      simp only [parseLoopB, digitVal_ofNat hm]
      have hdm : n / 10 * 10 + n % 10 = n := by omega
      rw [hdm, if_pos hB]

theorem parseLoopB_natDecimal {B : Nat} (ov : IntErrorKind) (n : Nat) (hB : n ≤ B) :
    parseLoopB B ov (natDecimal n) 0 = .ok n := by
  by_cases h0 : n = 0
  · subst h0
    have : (0 : Nat) ≤ B := Nat.zero_le B
    simp [natDecimal, parseLoopB, digitVal, this]
  · simp only [natDecimal, if_neg h0]
    exact parseLoopB_natDecAux ov n n le_rfl hB

theorem rustParseU64_natDecimal {n : Nat} (h : n ≤ 18446744073709551615) :
    rustParseU64 (natDecimal n) = .ok n := by
  obtain ⟨c, cs, hcons⟩ := natDecimal_cons n
  have hc : 48 ≤ c.toNat ∧ c.toNat ≤ 57 := natDecimal_mem_toNat (by rw [hcons]; simp)
  have hplus : c ≠ '+' := by
    intro he
    subst he
    exact absurd hc (by decide)
  rw [hcons]
  simp only [rustParseU64, if_neg hplus]
  rw [← hcons]
  exact parseLoopB_natDecimal _ n h

theorem rustParseI64_intDecimal {i : Int}
    (hlo : -9223372036854775808 ≤ i) (hhi : i ≤ 9223372036854775807) :
    rustParseI64 (intDecimal i) = .ok i := by
  obtain ⟨c, cs, hcons⟩ := natDecimal_cons i.natAbs
  have hc : 48 ≤ c.toNat ∧ c.toNat ≤ 57 := natDecimal_mem_toNat (by rw [hcons]; simp)
  have hplus : c ≠ '+' := by
    intro he; subst he; exact absurd hc (by decide)
  have hminus : c ≠ '-' := by
    intro he; subst he; exact absurd hc (by decide)
  by_cases hneg : i < 0
  · have habs : i.natAbs ≤ 9223372036854775808 := by omega
    simp only [intDecimal, if_pos hneg]
    rw [hcons]
    simp only [rustParseI64, if_neg (by decide : ¬('-' : Char) = '+'), if_pos rfl]
    rw [← hcons, parseLoopB_natDecimal .negOverflow i.natAbs habs]
    have hival : -((i.natAbs : Nat) : Int) = i := by omega
    show Except.ok (-(Int.ofNat i.natAbs)) = Except.ok i
    rw [Int.ofNat_eq_natCast, hival]
  · have habs : i.natAbs ≤ 9223372036854775807 := by omega
    simp only [intDecimal, if_neg hneg]
    rw [hcons]
    simp only [rustParseI64, if_neg hplus, if_neg hminus]
    rw [← hcons, parseLoopB_natDecimal .posOverflow i.natAbs habs]
    have hival : ((i.natAbs : Nat) : Int) = i := by omega
    show Except.ok (Int.ofNat i.natAbs) = Except.ok i
    rw [Int.ofNat_eq_natCast, hival]

theorem stripPrefixL_append (p s : List Char) : stripPrefixL p (p ++ s) = some s := by
  induction p with
  | nil => rfl
  | cons c cs ih => simp [stripPrefixL, ih]

theorem stripPrefixL_eq_some {p s r : List Char} (h : stripPrefixL p s = some r) :
    s = p ++ r := by
  induction p generalizing s with
  | nil =>
    simp only [stripPrefixL, Option.some.injEq] at h
    simp [h]
  | cons c cs ih =>
    cases s with
    | nil => simp [stripPrefixL] at h
    | cons c' s' =>
      simp only [stripPrefixL] at h
      by_cases hcc : c = c'
      · subst hcc
        rw [if_pos rfl] at h
        simpa using ih h
      · rw [if_neg hcc] at h
        exact absurd h (by simp)

theorem splitAmp_no_amp {p : List Char} (hp : '&' ∉ p) : splitAmp p = [p] := by
  induction p with
  | nil => rfl
  | cons c cs ih =>
    have hc : c ≠ '&' := fun he => hp (by simp [he])
    have hcs : '&' ∉ cs := fun hm => hp (by simp [hm])
    simp only [splitAmp]
    rw [ih hcs]
    simp [hc]

theorem splitAmp_append_amp {p : List Char} (rest : List Char) (hp : '&' ∉ p) :
    splitAmp (p ++ '&' :: rest) = p :: splitAmp rest := by
  induction p with
  | nil => simp [splitAmp]
  | cons c cs ih =>
    have hc : c ≠ '&' := fun he => hp (by simp [he])
    have hcs : '&' ∉ cs := fun hm => hp (by simp [hm])
    simp only [List.cons_append, splitAmp, List.append_eq]
    rw [ih hcs]
    simp [hc]

theorem natDecimal_no_amp (n : Nat) : '&' ∉ natDecimal n := by
  intro h
  have := natDecimal_mem_toNat h
  exact absurd this (by decide)

theorem intDecimal_no_amp (i : Int) : '&' ∉ intDecimal i := by
  intro h
  unfold intDecimal at h
  split at h
  · rcases List.mem_cons.mp h with h1 | h2
    · exact absurd h1 (by decide)
    · exact absurd (natDecimal_mem_toNat h2) (by decide)
  · exact absurd (natDecimal_mem_toNat h) (by decide)

theorem kindPart_no_amp (k : Nat) : '&' ∉ "kind=".data ++ natDecimal k := by
  intro h
  rcases List.mem_append.mp h with h1 | h2
  · exact absurd h1 (by decide)
  · exact natDecimal_no_amp k h2

theorem afterPart_no_amp (t : Int) : '&' ∉ "created_at>".data ++ intDecimal t := by
  intro h
  rcases List.mem_append.mp h with h1 | h2
  · exact absurd h1 (by decide)
  · exact intDecimal_no_amp t h2

theorem beforePart_no_amp (t : Int) : '&' ∉ "created_at<".data ++ intDecimal t := by
  intro h
  rcases List.mem_append.mp h with h1 | h2
  · exact absurd h1 (by decide)
  · exact intDecimal_no_amp t h2

theorem applyPart_kindPart (o : DelegationConditions) {k : Nat}
    (hk : k ≤ 18446744073709551615) :
    applyPart o ("kind=".data ++ natDecimal k) = .ok { o with kind := some k } := by
  have h1 : stripPrefixL "created_at>".data ("kind=".data ++ natDecimal k) = none := rfl
  have h2 : stripPrefixL "created_at<".data ("kind=".data ++ natDecimal k) = none := rfl
  unfold applyPart applyKind applyAfter applyBefore
  rw [stripPrefixL_append]
  simp only [h1, h2, rustParseU64_natDecimal hk]

theorem applyPart_afterPart (o : DelegationConditions) {t : Int}
    (hlo : -9223372036854775808 ≤ t) (hhi : t ≤ 9223372036854775807) :
    applyPart o ("created_at>".data ++ intDecimal t) =
      .ok { o with created_after := some t } := by
  have h1 : stripPrefixL "kind=".data ("created_at>".data ++ intDecimal t) = none := rfl
  have h2 : stripPrefixL "created_at<".data ("created_at>".data ++ intDecimal t) = none := rfl
  unfold applyPart applyKind applyAfter applyBefore
  rw [stripPrefixL_append]
  simp only [h1, h2, rustParseI64_intDecimal hlo hhi]

theorem applyPart_beforePart (o : DelegationConditions) {t : Int}
    (hlo : -9223372036854775808 ≤ t) (hhi : t ≤ 9223372036854775807) :
    applyPart o ("created_at<".data ++ intDecimal t) =
      .ok { o with created_before := some t } := by
  have h1 : stripPrefixL "kind=".data ("created_at<".data ++ intDecimal t) = none := rfl
  have h2 : stripPrefixL "created_at>".data ("created_at<".data ++ intDecimal t) = none := rfl
  unfold applyPart applyKind applyAfter applyBefore
  rw [stripPrefixL_append]
  simp only [h1, h2, rustParseI64_intDecimal hlo hhi]

theorem data_mk (l : List Char) : (String.mk l).data = l := rfl

theorem tfsList_cons_ok {o o' : DelegationConditions} {p : List Char}
    (h : applyPart o p = .ok o') (ps : List (List Char)) :
    tfsList o (p :: ps) = tfsList o' ps := by
  simp only [tfsList, h]

/-- Claim C2: for every `DelegationConditions` value (any subset of the
three optional fields present, `kind` a `u64` value, timestamps any
signed 64-bit integers), parsing the canonical serialization returns
exactly the original value: `try_from_str (as_string c) = Ok c`. -/
theorem try_from_str_as_string (c : DelegationConditions)
    (hk : ∀ k, c.kind = some k → k ≤ 18446744073709551615)
    (ha : ∀ t, c.created_after = some t →
      -9223372036854775808 ≤ t ∧ t ≤ 9223372036854775807)
    (hb : ∀ t, c.created_before = some t →
      -9223372036854775808 ≤ t ∧ t ≤ 9223372036854775807) :
    DelegationConditions.try_from_str c.as_string = .ok c := by
  obtain ⟨ok, oa, ob⟩ := c
  simp only [DelegationConditions.try_from_str, DelegationConditions.as_string, data_mk]
  cases ok with
  | some k =>
    have hk' : k ≤ 18446744073709551615 := hk k rfl
    cases oa with
    | some ta =>
      obtain ⟨ha1, ha2⟩ := ha ta rfl
      cases ob with
      | some tb =>
        obtain ⟨hb1, hb2⟩ := hb tb rfl
        have hparts : condParts ⟨some k, some ta, some tb⟩ =
            ["kind=".data ++ natDecimal k, "created_at>".data ++ intDecimal ta,
              "created_at<".data ++ intDecimal tb] := rfl
        have hjoin : joinAmp ["kind=".data ++ natDecimal k,
              "created_at>".data ++ intDecimal ta, "created_at<".data ++ intDecimal tb] =
            ("kind=".data ++ natDecimal k) ++ '&' ::
              (("created_at>".data ++ intDecimal ta) ++ '&' ::
                ("created_at<".data ++ intDecimal tb)) := rfl
        rw [hparts, hjoin, splitAmp_append_amp _ (kindPart_no_amp k),
          splitAmp_append_amp _ (afterPart_no_amp ta),
          splitAmp_no_amp (beforePart_no_amp tb),
          tfsList_cons_ok (applyPart_kindPart _ hk'),
          tfsList_cons_ok (applyPart_afterPart _ ha1 ha2),
          tfsList_cons_ok (applyPart_beforePart _ hb1 hb2)]
        rfl
      | none =>
        have hparts : condParts ⟨some k, some ta, none⟩ =
            ["kind=".data ++ natDecimal k, "created_at>".data ++ intDecimal ta] := rfl
        have hjoin : joinAmp ["kind=".data ++ natDecimal k,
              "created_at>".data ++ intDecimal ta] =
            ("kind=".data ++ natDecimal k) ++ '&' ::
              ("created_at>".data ++ intDecimal ta) := rfl
        rw [hparts, hjoin, splitAmp_append_amp _ (kindPart_no_amp k),
          splitAmp_no_amp (afterPart_no_amp ta),
          tfsList_cons_ok (applyPart_kindPart _ hk'),
          tfsList_cons_ok (applyPart_afterPart _ ha1 ha2)]
        rfl
    | none =>
      cases ob with
      | some tb =>
        obtain ⟨hb1, hb2⟩ := hb tb rfl
        have hparts : condParts ⟨some k, none, some tb⟩ =
            ["kind=".data ++ natDecimal k, "created_at<".data ++ intDecimal tb] := rfl
        have hjoin : joinAmp ["kind=".data ++ natDecimal k,
              "created_at<".data ++ intDecimal tb] =
            ("kind=".data ++ natDecimal k) ++ '&' ::
              ("created_at<".data ++ intDecimal tb) := rfl
        rw [hparts, hjoin, splitAmp_append_amp _ (kindPart_no_amp k),
          splitAmp_no_amp (beforePart_no_amp tb),
          tfsList_cons_ok (applyPart_kindPart _ hk'),
          tfsList_cons_ok (applyPart_beforePart _ hb1 hb2)]
        rfl
      | none =>
        have hparts : condParts ⟨some k, none, none⟩ =
            ["kind=".data ++ natDecimal k] := rfl
        have hjoin : joinAmp ["kind=".data ++ natDecimal k] =
            "kind=".data ++ natDecimal k := rfl
        rw [hparts, hjoin, splitAmp_no_amp (kindPart_no_amp k),
          tfsList_cons_ok (applyPart_kindPart _ hk')]
        rfl
  | none =>
    cases oa with
    | some ta =>
      obtain ⟨ha1, ha2⟩ := ha ta rfl
      cases ob with
      | some tb =>
        obtain ⟨hb1, hb2⟩ := hb tb rfl
        have hparts : condParts ⟨none, some ta, some tb⟩ =
            ["created_at>".data ++ intDecimal ta, "created_at<".data ++ intDecimal tb] := rfl
        have hjoin : joinAmp ["created_at>".data ++ intDecimal ta,
              "created_at<".data ++ intDecimal tb] =
            ("created_at>".data ++ intDecimal ta) ++ '&' ::
              ("created_at<".data ++ intDecimal tb) := rfl
        rw [hparts, hjoin, splitAmp_append_amp _ (afterPart_no_amp ta),
          splitAmp_no_amp (beforePart_no_amp tb),
          tfsList_cons_ok (applyPart_afterPart _ ha1 ha2),
          tfsList_cons_ok (applyPart_beforePart _ hb1 hb2)]
        rfl
      | none =>
        have hparts : condParts ⟨none, some ta, none⟩ =
            ["created_at>".data ++ intDecimal ta] := rfl
        have hjoin : joinAmp ["created_at>".data ++ intDecimal ta] =
            "created_at>".data ++ intDecimal ta := rfl
        rw [hparts, hjoin, splitAmp_no_amp (afterPart_no_amp ta),
          tfsList_cons_ok (applyPart_afterPart _ ha1 ha2)]
        rfl
    | none =>
      cases ob with
      | some tb =>
        obtain ⟨hb1, hb2⟩ := hb tb rfl
        have hparts : condParts ⟨none, none, some tb⟩ =
            ["created_at<".data ++ intDecimal tb] := rfl
        have hjoin : joinAmp ["created_at<".data ++ intDecimal tb] =
            "created_at<".data ++ intDecimal tb := rfl
        rw [hparts, hjoin, splitAmp_no_amp (beforePart_no_amp tb),
          tfsList_cons_ok (applyPart_beforePart _ hb1 hb2)]
        rfl
      | none => rfl

/-- Modelled from the spec (§4.1): the serializer emits at most three
`&`-joined parts in fixed order `kind=<uint>`, `created_at><int>`,
`created_at<<int>`, absent fields producing no part, the empty string
when all three are absent. -/
def serialize_spec (c : DelegationConditions) : String :=
  String.mk (List.flatten (List.intersperse ['&']
    ((c.kind.map (fun k => "kind=".data ++ natDecimal k)).toList ++
     (c.created_after.map (fun t => "created_at>".data ++ intDecimal t)).toList ++
     (c.created_before.map (fun t => "created_at<".data ++ intDecimal t)).toList)))

/-- Claim C6: `as_string` emits at most three `&`-joined parts in the
fixed order `kind=<uint>`, `created_at><int>`, `created_at<<int>`,
omitting absent fields, and returns the empty string when all three are
absent; in particular on `{kind: Some 1, created_after: Some 1000000,
created_before: Some 2000000}` it yields
`"kind=1&created_at>1000000&created_at<2000000"`. -/
theorem as_string_canonical_shape :
    (∀ c : DelegationConditions, c.as_string = serialize_spec c) ∧
    DelegationConditions.as_string ⟨some 1, some 1000000, some 2000000⟩ =
      "kind=1&created_at>1000000&created_at<2000000" ∧
    DelegationConditions.as_string ⟨none, none, none⟩ = "" := by
  refine ⟨?_, ?_, ?_⟩
  · intro c
    obtain ⟨ok, oa, ob⟩ := c
    cases ok <;> cases oa <;> cases ob <;>
      simp [DelegationConditions.as_string, serialize_spec, condParts, joinAmp,
        List.intersperse, List.flatten]
  · rfl
  · rfl

/-- Claim C1: for every conditions value, delegator key pair and
delegatee public key, verifying (with the delegator's public key and
the delegatee's public key) a signature produced by
`generate_signature` succeeds, assuming the external signer/verifier
capability satisfies `verify (pk sk) m (sign sk m) = Ok` and the
signature/hex conversion round-trips. -/
theorem generate_verify_roundtrip {PrivKey PubKey Sig SigHex : Type}
    (as_bytes : String → List Nat) (as_hex_string : PubKey → String)
    (pk : PrivKey → PubKey)
    (sign : PrivKey → List Nat → Except Error Sig)
    (verify : PubKey → List Nat → Sig → Except Error Unit)
    (sigIntoHex : Sig → SigHex) (hexToSig : SigHex → Except Error Sig)
    (hsound : ∀ sk m s, sign sk m = .ok s → verify (pk sk) m s = .ok ())
    (hhex : ∀ s, hexToSig (sigIntoHex s) = .ok s)
    (c : DelegationConditions) (sk : PrivKey) (delegatee : PubKey)
    (sighex : SigHex) (s : Sig)
    (hgen : generate_signature as_bytes sign sigIntoHex c (as_hex_string delegatee) sk =
      .ok sighex)
    (hs : hexToSig sighex = .ok s) :
    verify_signature as_bytes as_hex_string verify c (pk sk) delegatee s = .ok () := by
  unfold generate_signature at hgen
  cases hsign : sign sk
      (as_bytes ("nostr:delegation:" ++ as_hex_string delegatee ++ ":" ++ c.as_string)) with
  | error e =>
    rw [hsign] at hgen
    exact absurd hgen (by simp)
  | ok s0 =>
    rw [hsign] at hgen
    simp only [Except.ok.injEq] at hgen
    subst hgen
    rw [hhex s0] at hs
    simp only [Except.ok.injEq] at hs
    subst hs
    exact hsound sk _ s0 hsign

def wBytes (_ : String) : List Nat := []

def wHex (_ : Unit) : String := "aa"

def wPk (_ : Unit) : Unit := ()

def wSign (_ : Unit) (_ : List Nat) : Except Error Unit := .ok ()

def wVerify (_ : Unit) (_ : List Nat) (_ : Unit) : Except Error Unit := .ok ()

def wHexToSig (_ : Unit) : Except Error Unit := .ok ()

theorem generate_verify_roundtrip_witness :
    generate_signature wBytes wSign id (⟨some 1, none, none⟩ : DelegationConditions)
        (wHex ()) () = .ok () ∧
    wHexToSig () = .ok () ∧
    verify_signature wBytes wHex wVerify (⟨some 1, none, none⟩ : DelegationConditions)
        (wPk ()) () () = .ok () :=
  ⟨rfl, rfl,
    generate_verify_roundtrip wBytes wHex wPk wSign wVerify id wHexToSig
      (fun _ _ _ _ => rfl) (fun _ => rfl) ⟨some 1, none, none⟩ () () () ()
      rfl rfl⟩

/-- Claim C3: both `generate_signature` and `verify_signature` build
the signing payload as exactly the UTF-8 bytes of
`"nostr:delegation:" + <delegatee pubkey hex> + ":" + <conditions string>`
(the spec's `build_signing_payload`); `verify_signature` puts the
delegatee's key in the payload and hands the delegator's key to the
cryptographic check, never the reverse. -/
theorem signing_payload_shape {PrivKey PubKey Sig SigHex : Type}
    (as_bytes : String → List Nat) (as_hex_string : PubKey → String)
    (sign : PrivKey → List Nat → Except Error Sig)
    (verify : PubKey → List Nat → Sig → Except Error Unit)
    (sigIntoHex : Sig → SigHex)
    (c : DelegationConditions) (pubkey_hex : String) (sk : PrivKey)
    (pubkey_delegater pubkey_delegatee : PubKey) (signature : Sig) :
    generate_signature as_bytes sign sigIntoHex c pubkey_hex sk =
      (match sign sk (as_bytes (build_signing_payload pubkey_hex c)) with
       | .ok s => .ok (sigIntoHex s)
       | .error e => .error e) ∧
    verify_signature as_bytes as_hex_string verify c pubkey_delegater pubkey_delegatee
        signature =
      verify pubkey_delegater
        (as_bytes (build_signing_payload (as_hex_string pubkey_delegatee) c))
        signature := by
  constructor
  · unfold generate_signature build_signing_payload
    cases sign sk (as_bytes ("nostr:delegation:" ++ pubkey_hex ++ ":" ++ c.as_string)) <;> rfl
  · rfl

/-- Modelled from the claim's wording: per part, the `kind` field takes
the parsed value when the part matches `kind=`, else keeps its value. -/
def kindStep (acc : Option Nat) (p : List Char) : Option Nat :=
  match stripPrefixL "kind=".data p with
  | some r =>
    match rustParseU64 r with
    | .ok n => some n
    | .error _ => acc
  | none => acc

/-- Modelled from the claim's wording: per part, the `created_after`
field takes the parsed value when the part matches `created_at>`. -/
def afterStep (acc : Option Int) (p : List Char) : Option Int :=
  match stripPrefixL "created_at>".data p with
  | some r =>
    match rustParseI64 r with
    | .ok t => some t
    | .error _ => acc
  | none => acc

/-- Modelled from the claim's wording: per part, the `created_before`
field takes the parsed value when the part matches `created_at<`. -/
def beforeStep (acc : Option Int) (p : List Char) : Option Int :=
  match stripPrefixL "created_at<".data p with
  | some r =>
    match rustParseI64 r with
    | .ok t => some t
    | .error _ => acc
  | none => acc

/-- The claim's failure condition for a single part: it starts with one
of the three recognized prefixes and its remainder fails to parse as
the required integer. -/
def partMalformed (part : List Char) : Prop :=
  (∃ r, stripPrefixL "kind=".data part = some r ∧ ∃ e, rustParseU64 r = .error e) ∨
  (∃ r, stripPrefixL "created_at>".data part = some r ∧ ∃ e, rustParseI64 r = .error e) ∨
  (∃ r, stripPrefixL "created_at<".data part = some r ∧ ∃ e, rustParseI64 r = .error e)

def isOkE {ε α : Type} : Except ε α → Bool
  | .ok _ => true
  | .error _ => false

theorem applyPart_cases (o : DelegationConditions) (p : List Char) :
    ((∃ e, applyPart o p = .error (.ParseInt e)) ∧ partMalformed p) ∨
    (applyPart o p = .ok ⟨kindStep o.kind p, afterStep o.created_after p,
        beforeStep o.created_before p⟩ ∧ ¬partMalformed p) := by
  cases hk : stripPrefixL "kind=".data p with
  | some r =>
    obtain rfl := stripPrefixL_eq_some hk
    have h1 : stripPrefixL "created_at>".data ("kind=".data ++ r) = none := rfl
    have h2 : stripPrefixL "created_at<".data ("kind=".data ++ r) = none := rfl
    cases hp : rustParseU64 r with
    | error e =>
      left
      refine ⟨⟨e, ?_⟩, Or.inl ⟨r, stripPrefixL_append _ _, e, hp⟩⟩
      unfold applyPart applyKind
      simp only [stripPrefixL_append, hp]
    | ok n =>
      right
      constructor
      · unfold applyPart applyKind applyAfter applyBefore kindStep afterStep beforeStep
        simp only [stripPrefixL_append, hp, h1, h2]
      · rintro (⟨r', hr', e', hp'⟩ | ⟨r', hr', e', hp'⟩ | ⟨r', hr', e', hp'⟩)
        · rw [stripPrefixL_append] at hr'
          obtain rfl := Option.some.inj hr'
          rw [hp] at hp'
          exact absurd hp' (by simp)
        · rw [h1] at hr'
          exact absurd hr' (by simp)
        · rw [h2] at hr'
          exact absurd hr' (by simp)
  | none =>
    cases ha : stripPrefixL "created_at>".data p with
    | some r =>
      obtain rfl := stripPrefixL_eq_some ha
      have h2 : stripPrefixL "created_at<".data ("created_at>".data ++ r) = none := rfl
      cases hp : rustParseI64 r with
      | error e =>
        left
        refine ⟨⟨e, ?_⟩, Or.inr (Or.inl ⟨r, stripPrefixL_append _ _, e, hp⟩)⟩
        unfold applyPart applyKind applyAfter
        simp only [hk, stripPrefixL_append, hp]
      | ok t =>
        right
        constructor
        · unfold applyPart applyKind applyAfter applyBefore kindStep afterStep beforeStep
          simp only [hk, stripPrefixL_append, hp, h2]
        · rintro (⟨r', hr', e', hp'⟩ | ⟨r', hr', e', hp'⟩ | ⟨r', hr', e', hp'⟩)
          · rw [hk] at hr'
            exact absurd hr' (by simp)
          · rw [stripPrefixL_append] at hr'
            obtain rfl := Option.some.inj hr'
            rw [hp] at hp'
            exact absurd hp' (by simp)
          · rw [h2] at hr'
            exact absurd hr' (by simp)
    | none =>
      cases hb : stripPrefixL "created_at<".data p with
      | some r =>
        obtain rfl := stripPrefixL_eq_some hb
        cases hp : rustParseI64 r with
        | error e =>
          left
          refine ⟨⟨e, ?_⟩, Or.inr (Or.inr ⟨r, stripPrefixL_append _ _, e, hp⟩)⟩
          unfold applyPart applyKind applyAfter applyBefore
          simp only [hk, ha, stripPrefixL_append, hp]
        | ok t =>
          right
          constructor
          · unfold applyPart applyKind applyAfter applyBefore kindStep afterStep beforeStep
            simp only [hk, ha, stripPrefixL_append, hp]
          · rintro (⟨r', hr', e', hp'⟩ | ⟨r', hr', e', hp'⟩ | ⟨r', hr', e', hp'⟩)
            · rw [hk] at hr'
              exact absurd hr' (by simp)
            · rw [ha] at hr'
              exact absurd hr' (by simp)
            · rw [stripPrefixL_append] at hr'
              obtain rfl := Option.some.inj hr'
              rw [hp] at hp'
              exact absurd hp' (by simp)
      | none =>
        right
        constructor
        · unfold applyPart applyKind applyAfter applyBefore kindStep afterStep beforeStep
          simp only [hk, ha, hb]
        · rintro (⟨r', hr', e', hp'⟩ | ⟨r', hr', e', hp'⟩ | ⟨r', hr', e', hp'⟩)
          · rw [hk] at hr'
            exact absurd hr' (by simp)
          · rw [ha] at hr'
            exact absurd hr' (by simp)
          · rw [hb] at hr'
            exact absurd hr' (by simp)

theorem tfsList_error_iff (parts : List (List Char)) (o : DelegationConditions) :
    isOkE (tfsList o parts) = false ↔ ∃ p ∈ parts, partMalformed p := by
  induction parts generalizing o with
  | nil => simp [tfsList, isOkE]
  | cons p ps ih =>
    rcases applyPart_cases o p with ⟨⟨e, hep⟩, hmal⟩ | ⟨hok, hnmal⟩
    · simp only [tfsList, hep, isOkE]
      constructor
      · intro _
        exact ⟨p, List.mem_cons_self p ps, hmal⟩
      · intro _
        trivial
    · simp only [tfsList, hok]
      rw [ih]
      constructor
      · rintro ⟨q, hq, hqm⟩
        exact ⟨q, List.mem_cons_of_mem _ hq, hqm⟩
      · rintro ⟨q, hq, hqm⟩
        rcases List.mem_cons.mp hq with rfl | hq'
        · exact absurd hqm hnmal
        · exact ⟨q, hq', hqm⟩

theorem tfsList_error_shape (parts : List (List Char)) (o : DelegationConditions)
    (e : Error) (h : tfsList o parts = .error e) : ∃ k, e = .ParseInt k := by
  induction parts generalizing o with
  | nil => simp [tfsList] at h
  | cons p ps ih =>
    rcases applyPart_cases o p with ⟨⟨e0, hep⟩, _⟩ | ⟨hok, _⟩
    · simp only [tfsList, hep, Except.error.injEq] at h
      exact ⟨e0, h.symm⟩
    · simp only [tfsList, hok] at h
      exact ih _ h

theorem tfsList_fields (parts : List (List Char)) (o c' : DelegationConditions)
    (h : tfsList o parts = .ok c') :
    c'.kind = parts.foldl kindStep o.kind ∧
    c'.created_after = parts.foldl afterStep o.created_after ∧
    c'.created_before = parts.foldl beforeStep o.created_before := by
  induction parts generalizing o with
  | nil =>
    simp only [tfsList, Except.ok.injEq] at h
    subst h
    simp
  | cons p ps ih =>
    rcases applyPart_cases o p with ⟨⟨e, hep⟩, _⟩ | ⟨hok, _⟩
    · simp only [tfsList, hep] at h
      exact absurd h (by simp)
    · simp only [tfsList, hok] at h
      have hfields := ih _ h
      simpa [List.foldl_cons] using hfields

/-- Claim C7 (amended): `try_from_str` errors iff some `&`-separated
part starts with one of the prefixes `kind=`, `created_at>`,
`created_at<` and its remainder fails to parse as the required integer;
the error is then the numeric-parse error `Error::ParseInt`, carrying
the parse-failure kind (the offending substring is not carried), and
the field is never defaulted; parts matching no prefix are silently
ignored, so parsing `"foo=bar"` succeeds with all fields absent. -/
theorem try_from_str_error_characterization (s : String) :
    (isOkE (DelegationConditions.try_from_str s) = false ↔
      ∃ p ∈ splitAmp s.data, partMalformed p) ∧
    (∀ e, DelegationConditions.try_from_str s = .error e → ∃ k, e = .ParseInt k) ∧
    DelegationConditions.try_from_str "foo=bar" = .ok ⟨none, none, none⟩ :=
  ⟨tfsList_error_iff _ _, fun e h => tfsList_error_shape _ _ e h, rfl⟩

theorem try_from_str_error_characterization_witness :
    (∃ p ∈ splitAmp ("kind=x").data, partMalformed p) ∧
    isOkE (DelegationConditions.try_from_str "kind=x") = false := by
  have hex : ∃ p ∈ splitAmp ("kind=x").data, partMalformed p :=
    ⟨"kind=x".data,
      by rw [show splitAmp ("kind=x").data = [("kind=x").data] from rfl]; simp,
      Or.inl ⟨"x".data, rfl, .invalidDigit, rfl⟩⟩
  exact ⟨hex, (try_from_str_error_characterization "kind=x").1.mpr hex⟩

/-- Claim C7 counterexample: the error value returned for the
unparseable remainder "a" equals the one returned for "b", so the
error does not carry the offending substring (its payload is only the
parse-failure kind). -/
theorem parse_error_lacks_substring :
    DelegationConditions.try_from_str "kind=a" = .error (.ParseInt .invalidDigit) ∧
    DelegationConditions.try_from_str "kind=b" = .error (.ParseInt .invalidDigit) ∧
    "kind=a" ≠ "kind=b" :=
  ⟨rfl, rfl, by decide⟩

/-- Claim C10: when `try_from_str` succeeds, each field holds the value
of the last matching part in left-to-right order (earlier occurrences
of a repeated prefix are silently overwritten). -/
theorem try_from_str_last_wins (s : String) (c : DelegationConditions)
    (h : DelegationConditions.try_from_str s = .ok c) :
    c.kind = (splitAmp s.data).foldl kindStep none ∧
    c.created_after = (splitAmp s.data).foldl afterStep none ∧
    c.created_before = (splitAmp s.data).foldl beforeStep none :=
  tfsList_fields _ _ _ h

theorem try_from_str_last_wins_witness :
    DelegationConditions.try_from_str "kind=1&kind=2" = .ok ⟨some 2, none, none⟩ ∧
    (⟨some 2, none, none⟩ : DelegationConditions).kind =
      (splitAmp ("kind=1&kind=2").data).foldl kindStep none :=
  ⟨rfl, (try_from_str_last_wins "kind=1&kind=2" _ rfl).1⟩

theorem try_from_str_as_string_witness :
    (∀ k, (⟨some 1, some 1000000, some (-5)⟩ : DelegationConditions).kind = some k →
      k ≤ 18446744073709551615) ∧
    DelegationConditions.try_from_str
        (DelegationConditions.as_string ⟨some 1, some 1000000, some (-5)⟩) =
      .ok ⟨some 1, some 1000000, some (-5)⟩ :=
  ⟨fun k hk => by
    simp only [Option.some.injEq] at hk
    omega,
   try_from_str_as_string ⟨some 1, some 1000000, some (-5)⟩
    (fun k hk => by
      simp only [Option.some.injEq] at hk
      omega)
    (fun t ht => by
      simp only [Option.some.injEq] at ht
      omega)
    (fun t ht => by
      simp only [Option.some.injEq] at ht
      omega)⟩

/-- A capability instantiation whose bech32 decode succeeds with
human-readable prefix `"nprofile"` and the given TLV byte buffer. -/
def capsTlv (tlv : List Nat) : ProfileCaps Unit (List Nat) :=
  { to_bytes := fun _ => List.replicate 32 0
  , from_bytes := fun _ => .error .InvalidPublicKey
  , utf8_bytes := fun _ => []
  , from_utf8 := fun _ => .ok ""
  , to_base32 := fun b => b
  , encode := fun _ _ => ""
  , decode := fun _ => .ok ("nprofile", tlv)
  , from_base32 := fun b => .ok b }

/-- Claim C4 (evaluation of the code at the failing inputs): on a
successfully bech32-decoded TLV buffer shorter than 2 bytes, or one
with the correct `[0, 32]` prefix but fewer than 34 bytes,
`try_from_bech32_string` panics via out-of-bounds indexing/slicing
(`tlv[0]`, `tlv[1]`, `&tlv[2..34]`) instead of returning an error
value; only a wrong first byte short-circuits into `InvalidProfile`. -/
theorem try_from_bech32_short_buffer_panics :
    Profile.try_from_bech32_string (capsTlv []) "x" = .panic "index out of bounds" ∧
    Profile.try_from_bech32_string (capsTlv [0]) "x" = .panic "index out of bounds" ∧
    Profile.try_from_bech32_string (capsTlv [0, 32]) "x" =
      .panic "slice index out of range" ∧
    Profile.try_from_bech32_string (capsTlv [5]) "x" = .err .InvalidProfile :=
  ⟨rfl, rfl, rfl, rfl⟩

/-- Claim C9: when bech32 decode succeeds with a human-readable prefix
other than `"nprofile"`, `try_from_bech32_string` fails with the
structured `WrongBech32` error carrying the expected prefix
`"nprofile"` and the actual prefix found, a constructor distinct from
`InvalidProfile` and from the checksum-decode error. -/
theorem try_from_bech32_wrong_hrp {PubKey B32 : Type}
    (caps : ProfileCaps PubKey B32) (s : String) (hrp : String) (b : B32)
    (hdec : caps.decode s = .ok (hrp, b)) (hne : hrp ≠ "nprofile") :
    Profile.try_from_bech32_string caps s = .err (.WrongBech32 "nprofile" hrp) ∧
    (∀ x y : String, Error.WrongBech32 x y ≠ .InvalidProfile) ∧
    (∀ x y : String, Error.WrongBech32 x y ≠ .Bech32) := by
  refine ⟨?_, fun x y => by simp, fun x y => by simp⟩
  unfold Profile.try_from_bech32_string
  simp only [hdec]
  rw [if_pos hne]

def capsNpub : ProfileCaps Unit Unit :=
  { to_bytes := fun _ => List.replicate 32 0
  , from_bytes := fun _ => .ok ()
  , utf8_bytes := fun _ => []
  , from_utf8 := fun _ => .ok ""
  , to_base32 := fun _ => ()
  , encode := fun _ _ => ""
  , decode := fun _ => .ok ("npub", ())
  , from_base32 := fun _ => .ok [] }

theorem try_from_bech32_wrong_hrp_witness :
    capsNpub.decode "x" = .ok ("npub", ()) ∧ ("npub" : String) ≠ "nprofile" ∧
    Profile.try_from_bech32_string capsNpub "x" =
      .err (.WrongBech32 "nprofile" "npub") :=
  ⟨rfl, by decide,
    (try_from_bech32_wrong_hrp capsNpub "x" "npub" () rfl (by decide)).1⟩

theorem relayRecords_mem (u : String → List Nat) {r : String} :
    ∀ {rs : List String}, r ∈ rs →
      ∃ pre post, relayRecords u rs =
        pre ++ (1 :: ((u r).length % 256) :: u r) ++ post := by
  intro rs h
  induction rs with
  | nil => simp at h
  | cons q qs ih =>
    rcases List.mem_cons.mp h with rfl | h'
    · exact ⟨[], relayRecords u qs, by simp [relayRecords]⟩
    · obtain ⟨pre, post, hpp⟩ := ih h'
      refine ⟨1 :: ((u q).length % 256) :: (u q ++ pre), post, ?_⟩
      simp [relayRecords, hpp]

/-- Claim C8: for a profile containing a relay whose UTF-8 byte length
exceeds 255, `as_bech32_string` does not reject or error: the TLV
buffer it encodes contains the relay's record with the length byte
written as the true length reduced modulo 256 — which misrepresents
the value — followed by all of the relay's bytes. -/
theorem as_bech32_oversized_relay {PubKey B32 : Type}
    (caps : ProfileCaps PubKey B32) (p : Profile PubKey) (r : String)
    (hr : r ∈ p.relays) (hlong : 255 < (caps.utf8_bytes r).length) :
    (∃ pre post, tlvOf caps p =
      pre ++ (1 :: ((caps.utf8_bytes r).length % 256) :: caps.utf8_bytes r) ++ post) ∧
    (caps.utf8_bytes r).length % 256 ≠ (caps.utf8_bytes r).length ∧
    Profile.as_bech32_string caps p =
      caps.encode "nprofile" (caps.to_base32 (tlvOf caps p)) := by
  refine ⟨?_, ?_, rfl⟩
  · obtain ⟨pre, post, hpp⟩ := relayRecords_mem caps.utf8_bytes hr
    refine ⟨0 :: 32 :: (caps.to_bytes p.pubkey ++ pre), post, ?_⟩
    simp [tlvOf, hpp]
  · have hm : (caps.utf8_bytes r).length % 256 < 256 := Nat.mod_lt _ (by norm_num)
    omega

def capsLong : ProfileCaps Unit (List Nat) :=
  { to_bytes := fun _ => List.replicate 32 0
  , from_bytes := fun _ => .ok ()
  , utf8_bytes := fun _ => List.replicate 256 7
  , from_utf8 := fun _ => .ok ""
  , to_base32 := fun b => b
  , encode := fun _ _ => ""
  , decode := fun _ => .error .Bech32
  , from_base32 := fun b => .ok b }

theorem as_bech32_oversized_relay_witness :
    ("w" ∈ (⟨(), ["w"]⟩ : Profile Unit).relays) ∧
    255 < (capsLong.utf8_bytes "w").length ∧
    (capsLong.utf8_bytes "w").length % 256 ≠ (capsLong.utf8_bytes "w").length := by
  have h := as_bech32_oversized_relay capsLong ⟨(), ["w"]⟩ "w" (by simp)
    (by simp [capsLong])
  exact ⟨by simp, by simp [capsLong], h.2.1⟩

theorem relayLoopF_records {dec : List Nat → Except Error String}
    {u : String → List Nat} :
    ∀ (rs : List String) (acc : List String) (fuel : Nat),
      (relayRecords u rs).length ≤ fuel + 1 →
      (∀ r ∈ rs, dec (u r) = .ok r) →
      (∀ r ∈ rs, (u r).length ≤ 255) →
      relayLoopF dec fuel (relayRecords u rs) acc = .ok (acc ++ rs) := by
  intro rs
  induction rs with
  | nil =>
    intro acc fuel _ _ _
    simp [relayRecords, relayLoopF]
  | cons q qs ih =>
    intro acc fuel hfuel hdec hlen
    have hq : (u q).length ≤ 255 := hlen q (List.mem_cons_self q qs)
    have hmod : (u q).length % 256 = (u q).length := Nat.mod_eq_of_lt (by omega)
    have hrec : relayRecords u (q :: qs) =
        1 :: ((u q).length % 256) :: (u q ++ relayRecords u qs) := rfl
    rw [hrec, hmod] at hfuel ⊢
    cases fuel with
    | zero =>
      exfalso
      simp only [List.length_cons, List.length_append] at hfuel
      omega
    | succ fuel =>
      have hfuel' : (relayRecords u qs).length ≤ fuel + 1 := by
        simp only [List.length_cons, List.length_append] at hfuel
        omega
      have hdec' : ∀ r ∈ qs, dec (u r) = .ok r :=
        fun r hr => hdec r (List.mem_cons_of_mem _ hr)
      have hlen' : ∀ r ∈ qs, (u r).length ≤ 255 :=
        fun r hr => hlen r (List.mem_cons_of_mem _ hr)
      simp only [relayLoopF]
      rw [if_neg (by simp), if_neg (by simp only [List.length_append]; omega),
        List.take_left, hdec q (List.mem_cons_self q qs)]
      show relayLoopF dec fuel ((u q ++ relayRecords u qs).drop (u q).length)
        (acc ++ [q]) = _
      rw [List.drop_left, ih (acc ++ [q]) fuel hfuel' hdec' hlen']
      simp

/-- Claim C5: for every `Profile` whose relay strings each have UTF-8
byte length at most 255, decoding the bech32 encoding reproduces the
profile exactly — same public key, same relay list in the same order,
duplicates and the empty list included — assuming the external
capabilities (key byte codec, UTF-8 codec, bech32/base32 codec)
round-trip where the code applies them. -/
theorem profile_bech32_roundtrip {PubKey B32 : Type}
    (caps : ProfileCaps PubKey B32) (p : Profile PubKey)
    (hlen32 : (caps.to_bytes p.pubkey).length = 32)
    (hpk : caps.from_bytes (caps.to_bytes p.pubkey) = .ok p.pubkey)
    (hdec : caps.decode (Profile.as_bech32_string caps p) =
      .ok ("nprofile", caps.to_base32 (tlvOf caps p)))
    (hb32 : caps.from_base32 (caps.to_base32 (tlvOf caps p)) = .ok (tlvOf caps p))
    (hutf8 : ∀ r ∈ p.relays, caps.from_utf8 (caps.utf8_bytes r) = .ok r)
    (hshort : ∀ r ∈ p.relays, (caps.utf8_bytes r).length ≤ 255) :
    Profile.try_from_bech32_string caps (Profile.as_bech32_string caps p) = .ok p := by
  have h0 : idx (tlvOf caps p) 0 = .ok 0 := rfl
  have h1 : idx (tlvOf caps p) 1 = .ok 32 := rfl
  have hcond : 2 ≤ 2 + 32 ∧ 2 + 32 ≤ (tlvOf caps p).length := by
    constructor
    · omega
    · have hlen : (tlvOf caps p).length =
          2 + ((caps.to_bytes p.pubkey).length +
            (relayRecords caps.utf8_bytes p.relays).length) := by
        simp only [tlvOf, List.length_cons, List.length_append]
        omega
      omega
  have hsl : sliceR (tlvOf caps p) 2 (2 + 32) = .ok (caps.to_bytes p.pubkey) := by
    unfold sliceR
    rw [if_pos hcond]
    show RResult.ok ((caps.to_bytes p.pubkey ++
      relayRecords caps.utf8_bytes p.relays).take 32) = _
    rw [← hlen32, List.take_left]
  have hdrop : (tlvOf caps p).drop (2 + 32) =
      relayRecords caps.utf8_bytes p.relays := by
    show (caps.to_bytes p.pubkey ++ relayRecords caps.utf8_bytes p.relays).drop 32 = _
    rw [← hlen32, List.drop_left]
  have hloop : relayLoopF caps.from_utf8 ((tlvOf caps p).drop (2 + 32)).length
      ((tlvOf caps p).drop (2 + 32)) [] = .ok p.relays := by
    rw [hdrop]
    have hl := relayLoopF_records p.relays []
      ((relayRecords caps.utf8_bytes p.relays).length) (Nat.le_succ _) hutf8 hshort
    simpa using hl
  unfold Profile.try_from_bech32_string
  simp only [hdec, hb32, h0, h1, hsl, hpk, hloop]
  simp

def capsRT : ProfileCaps Nat Unit :=
  { to_bytes := fun _ => List.replicate 32 0
  , from_bytes := fun _ => .ok 0
  , utf8_bytes := fun s => s.data.map Char.toNat
  , from_utf8 := fun b => if b = [97] then .ok "a" else .error .Utf8Error
  , to_base32 := fun _ => ()
  , encode := fun _ _ => "enc"
  , decode := fun _ => .ok ("nprofile", ())
  , from_base32 := fun _ => .ok (0 :: 32 :: (List.replicate 32 0 ++ [1, 1, 97])) }

theorem profile_bech32_roundtrip_witness :
    (∀ r ∈ (⟨0, ["a"]⟩ : Profile Nat).relays, (capsRT.utf8_bytes r).length ≤ 255) ∧
    Profile.try_from_bech32_string capsRT
        (Profile.as_bech32_string capsRT ⟨0, ["a"]⟩) = .ok ⟨0, ["a"]⟩ := by
  refine ⟨?_, profile_bech32_roundtrip capsRT ⟨0, ["a"]⟩ (by simp [capsRT]) rfl rfl rfl
    ?_ ?_⟩
  · intro r hr
    obtain rfl := List.mem_singleton.mp hr
    decide
  · intro r hr
    obtain rfl := List.mem_singleton.mp hr
    rfl
  · intro r hr
    obtain rfl := List.mem_singleton.mp hr
    decide
